import Mathlib

/-!
Verification of the HTML section-discovery and field-normalization core of
the Interpol red-notice scraper (`src/main.py`).

The development shallowly embeds the Python functions of `main.py` as Lean
definitions over a tree model of parsed HTML documents:

* text utilities: `strip_accents`, `clean_text`, `contains_any`;
* the section locator `find_section_by_heading` (headings `h1`..`h5`,
  candidate containers parent / nearest `<section>` / nearest `<div>`);
* the pair extractors for definition lists, tables and inline `label: value`
  text in list items and paragraphs;
* the key normalizer `normalize_identification_key` with its bilingual
  mapping table and substring fallback rules;
* the record assembler of `extract_identification`, the charges summarizer
  `extract_qualification`, and the age derivation
  `compute_age_from_date_text`;
* the per-document driver `scrape_notice` (with fetching factored out, the
  parsed document being an input).

Python strings are modelled as Lean `String` (lists of characters), Python
dictionaries as insertion-ordered association lists, and BeautifulSoup
documents as a nested inductive tree of element and text nodes.
-/

/-- Whitespace test used to model Python `str.split()` / `str.strip()`
(ASCII whitespace plus the non-breaking space). -/
def isWs (c : Char) : Bool :=
  c == ' ' || c == '\t' || c == '\n' || c == '\x0d' ||
  c == '\x0b' || c == '\x0c' || c == ' '

/-- Left strip: drop leading whitespace characters. -/
def lstripL (l : List Char) : List Char := l.dropWhile isWs

/-- Right strip: drop trailing whitespace characters. -/
def rstripL (l : List Char) : List Char := (l.reverse.dropWhile isWs).reverse

/-- Model of Python `str.strip()` on character lists. -/
def pstripL (l : List Char) : List Char := rstripL (lstripL l)

/-- Model of Python `str.strip()`. -/
def pyStrip (s : String) : String := ⟨pstripL s.data⟩

/-- Helper for `pyWords`: accumulate the current word (reversed) while
scanning the character list. -/
def wordsAux (cur : List Char) : List Char → List (List Char)
  | [] => if cur.isEmpty then [] else [cur.reverse]
  | c :: cs =>
    if isWs c then
      if cur.isEmpty then wordsAux [] cs else cur.reverse :: wordsAux [] cs
    else wordsAux (c :: cur) cs

/-- Model of Python `str.split()` with no argument: maximal runs of
non-whitespace characters. -/
def pyWords (l : List Char) : List (List Char) := wordsAux [] l

/-- Join a list of strings with a separator, as Python `sep.join(xs)`. -/
def joinSep (sep : String) : List String → String
  | [] => ""
  | [x] => x
  | x :: y :: xs => x ++ sep ++ joinSep sep (y :: xs)

/-- Model of `clean_text` (`main.py`, lines 68-72): replace non-breaking
spaces by spaces, collapse whitespace runs to single spaces via
`" ".join(text.split())`, and strip the ends. -/
def cleanText (s : String) : String :=
  let replaced := s.data.map (fun c => if c == ' ' then ' ' else c)
  pyStrip (joinSep " " ((pyWords replaced).map fun w => ⟨w⟩))

/-- Unicode NFD decomposition followed by removal of combining marks, for
each character; this models the effect of `strip_accents` (`main.py`,
lines 61-65) on one character.  The table covers the accented Latin letters
and combining marks that the scraper's configuration and the notices use;
all other characters decompose to themselves. -/
def decompChar (c : Char) : List Char :=
  if c == 'é' || c == 'è' || c == 'ê' || c == 'ë' then ['e']
  else if c == 'à' || c == 'â' || c == 'ä' then ['a']
  else if c == 'î' || c == 'ï' then ['i']
  else if c == 'ô' || c == 'ö' then ['o']
  else if c == 'ù' || c == 'û' || c == 'ü' then ['u']
  else if c == 'ç' then ['c']
  else if c == 'É' || c == 'È' || c == 'Ê' || c == 'Ë' then ['E']
  else if c == 'À' || c == 'Â' || c == 'Ä' then ['A']
  else if c == 'Î' || c == 'Ï' then ['I']
  else if c == 'Ô' || c == 'Ö' then ['O']
  else if c == 'Ù' || c == 'Û' || c == 'Ü' then ['U']
  else if c == 'Ç' then ['C']
  else if c == '̀' || c == '́' || c == '̂' ||
          c == '̈' || c == '̧' then []
  else [c]

/-- Model of `strip_accents` (`main.py`, lines 61-65) on character lists. -/
def stripAccentsL (l : List Char) : List Char := l.flatMap decompChar

/-- Model of `strip_accents` (`main.py`, lines 61-65). -/
def stripAccents (s : String) : String := ⟨stripAccentsL s.data⟩

/-- Model of Python `str.lower()` on character lists (ASCII case folding;
accented capitals are already decomposed to ASCII before lowering in every
use site of the scraper). -/
def lowerL (l : List Char) : List Char := l.map Char.toLower

/-- Model of Python `str.lower()`. -/
def pyLower (s : String) : String := ⟨lowerL s.data⟩

/-- Substring test on character lists, modelling Python's `in` operator on
strings. -/
def infixCheck (needle : List Char) : List Char → Bool
  | [] => needle.isEmpty
  | c :: rest => needle.isPrefixOf (c :: rest) || infixCheck needle rest

/-- Model of Python `needle in haystack` on strings. -/
def pyIn (needle hay : String) : Bool := infixCheck needle.data hay.data

/-- Model of `contains_any` (`main.py`, lines 75-80): accent- and
case-insensitive substring containment of any needle in the haystack. -/
def containsAny (hay : String) (needles : List String) : Bool :=
  needles.any fun n => pyIn (pyLower (stripAccents n)) (pyLower (stripAccents hay))

/-- The normalized lookup key computed at the start of
`normalize_identification_key` (`main.py`, line 220):
`strip_accents(raw_key).lower().strip()`. -/
def makeKey (raw : String) : String := pyStrip (pyLower (stripAccents raw))

/-- A parsed HTML document node: an element with a tag and ordered children,
or a text node.  This models the BeautifulSoup tree supplied by the
external HTML-parsing collaborator. -/
inductive Node where
  | text (s : String)
  | elem (tag : String) (children : List Node)

/-- Tag of a node; text nodes get the empty pseudo-tag, which never equals a
searched tag name. -/
def nodeTag : Node → String
  | .text _ => ""
  | .elem t _ => t

mutual

/-- Raw descendant strings of a node, in document order (the NavigableString
contents collected by BeautifulSoup's `get_text`). -/
def nodeStrings : Node → List String
  | .text s => [s]
  | .elem _ cs => nodeStringsList cs

/-- Raw descendant strings of a forest, in document order. -/
def nodeStringsList : List Node → List String
  | [] => []
  | n :: ns => nodeStrings n ++ nodeStringsList ns

end

/-- Model of BeautifulSoup `node.get_text(" ", strip=True)`: every descendant
string stripped, empty results skipped, remainder joined with one space. -/
def getTextStripped (n : Node) : String :=
  joinSep " " (((nodeStrings n).map pyStrip).filter fun s => s ≠ "")

/-- The cleaned rendered text `clean_text(node.get_text(" ", strip=True))`
that the scraper computes for headings, containers, cells and items. -/
def renderedText (n : Node) : String := cleanText (getTextStripped n)

mutual

/-- Descendants of a node paired with their ancestor chains (nearest
ancestor first), in document order.  The node itself is not listed, matching
BeautifulSoup `find_all`; the ancestor chains extend `anc`, the ancestors of
the node itself. -/
def descsA (anc : List Node) : Node → List (Node × List Node)
  | .text _ => []
  | .elem t cs => descsListA (Node.elem t cs :: anc) cs

/-- Descendants of a forest paired with ancestor chains, in document
order. -/
def descsListA (anc : List Node) : List Node → List (Node × List Node)
  | [] => []
  | n :: ns => (n, anc) :: descsA anc n ++ descsListA anc ns

end

/-- Descendants of a node in document order (BeautifulSoup `find_all`
search space). -/
def descendants (n : Node) : List Node := (descsA [] n).map Prod.fst

/-- Model of `container.find_all(tag)`: descendant elements with the given
tag, in document order. -/
def findAllTag (n : Node) (tg : String) : List Node :=
  (descendants n).filter fun d => nodeTag d == tg

/-- Model of `container.find_all([t1, t2, ...])`: descendant elements whose
tag is any of the given ones, in document order. -/
def findAllTags (n : Node) (tgs : List String) : List Node :=
  (descendants n).filter fun d => tgs.any fun tg => nodeTag d == tg

/-- Model of `h.find_parent(tag)`: the nearest ancestor with the given tag,
given the ancestor chain of `h` (nearest first). -/
def findParentTag (tg : String) (anc : List Node) : Option Node :=
  anc.find? fun p => nodeTag p == tg

/-- The identification-section heading keywords (`main.py`, lines 140-146). -/
def identificationKeywords : List String :=
  ["Éléments d'identification",
   "Elements d'identification",
   "Elements d identification",
   "Éléments d’identification",
   "Identification"]

/-- The charges-section heading keywords (`main.py`, lines 148-158). -/
def qualificationKeywords : List String :=
  ["Qualification de l'infraction",
   "Qualification de l’infraction",
   "Qualification des infractions",
   "Qualification de(s) l'infraction(s)",
   "Infraction",
   "Infractions",
   "Offence",
   "Offences",
   "Charges"]

/-- The heading levels scanned by `find_section_by_heading` (`main.py`,
line 163). -/
def headingLevels : List String := ["h1", "h2", "h3", "h4", "h5"]

/-- Test applied to each found heading inside `find_section_by_heading`
(`main.py`, lines 165-168): the cleaned title is non-empty and contains one
of the keywords, accent- and case-insensitively. -/
def headingMatches (kws : List String) (h : Node) : Bool :=
  renderedText h ≠ "" && containsAny (renderedText h) kws

/-- The heading the section locator anchors on: for each tag `h1`..`h5` in
turn, the headings with that tag are scanned in document order and the first
one passing `headingMatches` is returned together with its ancestor chain
(`main.py`, lines 163-168). -/
def headingScan (ds : List (Node × List Node)) (kws : List String) :
    List String → Option (Node × List Node)
  | [] => none
  | tg :: rest =>
    match (ds.filter fun x => nodeTag x.1 == tg).find?
        (fun x => headingMatches kws x.1) with
    | some ha => some ha
    | none => headingScan ds kws rest

/-- The anchor heading chosen by `find_section_by_heading` on a document. -/
def findHeadingAnchor (root : Node) (kws : List String) :
    Option (Node × List Node) :=
  headingScan (descsA [] root) kws headingLevels

/-- The candidate loop of `find_section_by_heading` (`main.py`, lines
171-174): try each candidate container in order, returning the first
existing one whose cleaned rendered text is longer than the heading title;
fall back to the heading itself. -/
def candidateLoop (title : String) (h : Node) : List (Option Node) → Node
  | [] => h
  | none :: rest => candidateLoop title h rest
  | some p :: rest =>
    if (renderedText p).length > title.length then p
    else candidateLoop title h rest

/-- Model of `find_section_by_heading` (`main.py`, lines 161-175). -/
def findSectionByHeading (root : Node) (kws : List String) : Option Node :=
  match findHeadingAnchor root kws with
  | none => none
  | some (h, anc) =>
    some (candidateLoop (renderedText h) h
      [anc.head?, findParentTag "section" anc, findParentTag "div" anc])

/-- Model of `extract_pairs_from_dl` (`main.py`, lines 178-188): for every
definition list, pair the i-th term with the i-th description up to the
shorter count, keeping pairs where either side is non-empty. -/
def extractPairsFromDl (container : Node) : List (String × String) :=
  (findAllTag container "dl").flatMap fun dl =>
    ((findAllTag dl "dt").zip (findAllTag dl "dd")).filterMap fun td =>
      let key := renderedText td.1
      let val := renderedText td.2
      if key ≠ "" ∨ val ≠ "" then some (key, val) else none

/-- Model of `extract_pairs_from_tables` (`main.py`, lines 191-201): for
every table row with at least two cells, the first cell is the key and the
remaining cells joined by one space are the value; pairs where either side
is non-empty are kept. -/
def extractPairsFromTables (container : Node) : List (String × String) :=
  (findAllTag container "table").flatMap fun tbl =>
    (findAllTag tbl "tr").flatMap fun tr =>
      match (findAllTags tr ["td", "th"]).map renderedText with
      | c0 :: c1 :: rest =>
        let val := joinSep " " (c1 :: rest)
        if c0 ≠ "" ∨ val ≠ "" then [(c0, val)] else []
      | _ => []

/-- Split a character list at the first colon, returning the parts before
and after it; `none` when there is no colon.  Models `txt.split(":", 1)`
for a text known to contain a colon. -/
def splitFirstColon : List Char → Option (List Char × List Char)
  | [] => none
  | c :: rest =>
    if c == ':' then some ([], rest)
    else match splitFirstColon rest with
         | some (a, b) => some (c :: a, b)
         | none => none

/-- Model of `extract_pairs_from_list_items` (`main.py`, lines 204-216):
for each list item or paragraph whose cleaned text is non-empty and
contains a colon, split on the first colon, strip both parts, and keep the
pair when either part is non-empty. -/
def extractPairsFromListItems (container : Node) : List (String × String) :=
  (findAllTags container ["li", "p"]).flatMap fun el =>
    let txt := renderedText el
    if txt = "" ∨ pyIn ":" txt = false then []
    else
      match splitFirstColon txt.data with
      | some (a, b) =>
        let key := pyStrip ⟨a⟩
        let val := pyStrip ⟨b⟩
        if key ≠ "" ∨ val ≠ "" then [(key, val)] else []
      | none => []

/-- The bilingual synonym table of `normalize_identification_key`
(`main.py`, lines 222-256), as an insertion-ordered association list. -/
def keyMapping : List (String × String) :=
  [("nom", "Nom"),
   ("surname", "Nom"),
   ("nom de famille", "Nom"),
   ("prenom", "Prénom"),
   ("prenoms", "Prénom"),
   ("forename", "Prénom"),
   ("given names", "Prénom"),
   ("sexe", "Sexe"),
   ("sex", "Sexe"),
   ("date de naissance", "Date de naissance"),
   ("date of birth", "Date de naissance"),
   ("lieu de naissance", "Lieu de naissance"),
   ("place of birth", "Lieu de naissance"),
   ("pays de naissance", "Pays de naissance"),
   ("country of birth", "Pays de naissance"),
   ("nationalite", "Nationalité"),
   ("nationalites", "Nationalité"),
   ("nationality", "Nationalité"),
   ("nationalities", "Nationalité"),
   ("taille", "Taille (cm)"),
   ("height", "Taille (cm)"),
   ("poids", "Poids (kg)"),
   ("weight", "Poids (kg)"),
   ("couleur des yeux", "Couleur des yeux"),
   ("eyes", "Couleur des yeux"),
   ("couleur des cheveux", "Couleur des cheveux"),
   ("hair", "Couleur des cheveux"),
   ("langues", "Langues"),
   ("languages", "Langues"),
   ("alias", "Alias"),
   ("aliases", "Alias"),
   ("identite", "Identité"),
   ("identites", "Identité")]

/-- Lookup in an insertion-ordered association list of strings, modelling
Python `d[k]` together with `k in d`. -/
def dlookup : List (String × String) → String → Option String
  | [], _ => none
  | (k', v') :: rest, k => if k' = k then some v' else dlookup rest k

/-- The substring fallback rules of `normalize_identification_key`
(`main.py`, lines 260-273), applied to the normalized key when the exact
table lookup misses; when none of them fires, the raw label is returned
stripped of surrounding whitespace. -/
def keyFallback (key raw : String) : String :=
  if pyIn "yeux" key || pyIn "eyes" key then "Couleur des yeux"
  else if pyIn "cheveux" key || pyIn "hair" key then "Couleur des cheveux"
  else if pyIn "nation" key then "Nationalité"
  else if pyIn "birth" key || pyIn "naissance" key then
    if pyIn "lieu" key || pyIn "place" key then "Lieu de naissance"
    else if pyIn "pays" key || pyIn "country" key then "Pays de naissance"
    else "Date de naissance"
  else pyStrip raw

/-- Model of `normalize_identification_key` (`main.py`, lines 219-273). -/
def normalizeIdentificationKey (rawKey : String) : String :=
  let key := makeKey rawKey
  match dlookup keyMapping key with
  | some v => v
  | none => keyFallback key rawKey

/-- Model of the Python statement `data[key] = val`: replace the value of
the first matching key, or append a new binding at the end. -/
def dictSet : List (String × String) → String → String → List (String × String)
  | [], k, v => [(k, v)]
  | (k', v') :: rest, k, v =>
    if k' = k then (k', v) :: rest else (k', v') :: dictSet rest k v

/-- One iteration of the merge loop of `extract_identification` (`main.py`,
lines 284-293): normalize the key, clean the value, skip empty values, and
either concatenate with `"; "` (key present, stored value non-empty, new
value not a substring of it) or set the value. -/
def mergeStep (data : List (String × String)) (p : String × String) :
    List (String × String) :=
  let key := normalizeIdentificationKey p.1
  let val := cleanText p.2
  if val = "" then data
  else
    match dlookup data key with
    | some old =>
      if old ≠ "" ∧ pyIn val old = false then
        dictSet data key (old ++ "; " ++ val)
      else dictSet data key val
    | none => dictSet data key val

/-- The merge loop of `extract_identification` (`main.py`, lines 283-294)
over an arbitrary sequence of raw pairs. -/
def mergePairs (pairs : List (String × String)) : List (String × String) :=
  pairs.foldl mergeStep []

/-- Model of `extract_identification` (`main.py`, lines 276-294):
concatenate the pairs of the three extraction strategies in their fixed
order and fold them through the merge loop. -/
def extractIdentification (container : Node) : List (String × String) :=
  mergePairs (extractPairsFromDl container ++ extractPairsFromTables container
    ++ extractPairsFromListItems container)

/-- Truncation `s[:n]` of a Python string. -/
def pyTake (s : String) (n : Nat) : String := ⟨s.data.take n⟩

/-- Model of `extract_qualification` (`main.py`, lines 297-311): the
non-empty cleaned texts of the list items, or of the paragraphs when there
is no such list-item text, joined with `"; "` and truncated to 1000
characters. -/
def extractQualification (container : Node) : String :=
  let bullets :=
    ((findAllTag container "li").map renderedText).filter fun t => t ≠ ""
  let bullets2 :=
    if bullets = [] then
      ((findAllTag container "p").map renderedText).filter fun t => t ≠ ""
    else bullets
  pyTake (joinSep "; " bullets2) 1000

/-- Numeric value of a list of decimal digit characters, modelling
`int("".join(digits))`. -/
def natOfDigits (l : List Char) : Nat :=
  l.foldl (fun acc c => 10 * acc + (c.toNat - '0'.toNat)) 0

/-- Model of `compute_age_from_date_text` (`main.py`, lines 314-331), with
the current year supplied as a parameter in place of `datetime.now()`. -/
def computeAgeFromDateText (currentYear : Nat) (dateText : String) : String :=
  if dateText = "" then ""
  else
    let digits := dateText.data.filter Char.isDigit
    if digits.length < 4 then ""
    else
      let year := natOfDigits (digits.take 4)
      if 1900 ≤ year ∧ year ≤ currentYear then
        if currentYear - year > 0 then toString (currentYear - year) else ""
      else ""

/-- The record produced for one notice (`main.py`, lines 336-340): the page
URL, the merged identification fields, and the charges summary. -/
structure NoticeRecord where
  url : String
  fields : List (String × String)
  infractions : String

/-- Model of `scrape_notice` (`main.py`, lines 380-407) after a successful
fetch: locate the two sections independently and build the record, with an
empty field list or empty charges summary when a section is missing. -/
def scrapeNoticeParsed (url : String) (soup : Node) : NoticeRecord :=
  let identContainer := findSectionByHeading soup identificationKeywords
  let qualifContainer := findSectionByHeading soup qualificationKeywords
  { url := url
    fields :=
      match identContainer with
      | some c => extractIdentification c
      | none => []
    infractions :=
      match qualifContainer with
      | some c => extractQualification c
      | none => "" }

/-! Helper lemmas about whitespace stripping and dictionaries. -/

theorem dropWhile_eq_nil_of_all {p : Char → Bool} {l : List Char}
    (h : ∀ c ∈ l, p c = true) : l.dropWhile p = [] := by
  induction l with
  | nil => rfl
  | cons c cs ih =>
    simp only [List.dropWhile_cons, h c (by simp), if_true]
    exact ih fun d hd => h d (by simp [hd])

theorem dropWhile_append_of_all {p : Char → Bool} {l₁ l₂ : List Char}
    (h : ∀ c ∈ l₁, p c = true) :
    (l₁ ++ l₂).dropWhile p = l₂.dropWhile p := by
  induction l₁ with
  | nil => rfl
  | cons c cs ih =>
    simp only [List.cons_append, List.dropWhile_cons, h c (by simp), if_true]
    exact ih fun d hd => h d (by simp [hd])

theorem dropWhile_head_false {p : Char → Bool} {l : List Char} {c : Char}
    {t : List Char} (h : l.dropWhile p = c :: t) : p c = false := by
  induction l with
  | nil => simp at h
  | cons a as ih =>
    by_cases ha : p a = true
    · exact ih (by simpa [List.dropWhile_cons, ha] using h)
    · simp only [List.dropWhile_cons, ha, if_false] at h ⊢
      cases h
      simpa using ha

theorem lstripL_append_ws {p x : List Char} (h : ∀ c ∈ p, isWs c = true) :
    lstripL (p ++ x) = lstripL x :=
  dropWhile_append_of_all h

theorem rstripL_append_ws {q x : List Char} (h : ∀ c ∈ q, isWs c = true) :
    rstripL (x ++ q) = rstripL x := by
  unfold rstripL
  rw [List.reverse_append, dropWhile_append_of_all (by simp_all)]

theorem pstripL_append_ws_left {p x : List Char} (h : ∀ c ∈ p, isWs c = true) :
    pstripL (p ++ x) = pstripL x := by
  unfold pstripL
  rw [lstripL_append_ws h]

theorem pstripL_append_ws_right {q x : List Char}
    (h : ∀ c ∈ q, isWs c = true) : pstripL (x ++ q) = pstripL x := by
  induction x with
  | nil =>
    simp only [List.nil_append]
    unfold pstripL lstripL
    rw [dropWhile_eq_nil_of_all h]
    rfl
  | cons c cs ih =>
    by_cases hc : isWs c = true
    · unfold pstripL lstripL at ih ⊢
      simpa [List.dropWhile_cons, hc] using ih
    · unfold pstripL lstripL
      simp only [List.cons_append, List.dropWhile_cons, hc, if_false]
      show rstripL (c :: (cs ++ q)) = rstripL (c :: cs)
      rw [show c :: (cs ++ q) = (c :: cs) ++ q from rfl]
      exact rstripL_append_ws h

theorem pstripL_decomposition (l : List Char) :
    ∃ p q, l = p ++ pstripL l ++ q ∧ (∀ c ∈ p, isWs c = true) ∧
      (∀ c ∈ q, isWs c = true) := by
  refine ⟨l.takeWhile isWs, ((l.dropWhile isWs).reverse.takeWhile isWs).reverse,
    ?_, fun c hc => List.mem_takeWhile_imp hc, fun c hc => ?_⟩
  · have hmid : pstripL l ++ ((l.dropWhile isWs).reverse.takeWhile isWs).reverse
        = l.dropWhile isWs := by
      unfold pstripL rstripL lstripL
      rw [← List.reverse_append, List.takeWhile_append_dropWhile,
        List.reverse_reverse]
    rw [List.append_assoc, hmid, List.takeWhile_append_dropWhile]
  · rw [List.mem_reverse] at hc
    exact List.mem_takeWhile_imp hc

theorem lstripL_idem (l : List Char) : lstripL (lstripL l) = lstripL l := by
  cases h : lstripL l with
  | nil => rfl
  | cons c t =>
    unfold lstripL at h ⊢
    simp [List.dropWhile_cons, dropWhile_head_false h]

theorem rstripL_idem (l : List Char) : rstripL (rstripL l) = rstripL l := by
  unfold rstripL
  rw [List.reverse_reverse]
  have := lstripL_idem l.reverse
  unfold lstripL at this
  rw [this]

theorem lstripL_rstripL_of_lstripped {y : List Char} (h : lstripL y = y) :
    lstripL (rstripL y) = rstripL y := by
  cases y with
  | nil => rfl
  | cons c t =>
    have hc : isWs c = false := by
      by_contra hct
      rw [Bool.not_eq_false] at hct
      have hlen : (lstripL (c :: t)).length ≤ t.length := by
        unfold lstripL
        simp only [List.dropWhile_cons, hct, if_true]
        clear h hct
        induction t with
        | nil => simp
        | cons a as ih =>
          by_cases ha : isWs a = true
          · simp only [List.dropWhile_cons, ha, if_true]
            exact le_trans ih (by simp)
          · simp [List.dropWhile_cons, ha]
      rw [h] at hlen
      simp at hlen
    have hpre : rstripL (c :: t) <+: c :: t := by
      have hsuf : ((c :: t).reverse).dropWhile isWs <:+ (c :: t).reverse :=
        List.dropWhile_suffix isWs
      unfold rstripL
      rw [← List.reverse_reverse (c :: t)]
      exact List.reverse_prefix.mpr (by simpa using hsuf)
    cases hr : rstripL (c :: t) with
    | nil => rfl
    | cons d u =>
      rw [hr] at hpre
      obtain ⟨r, hrr⟩ := hpre
      have hd : d = c := by
        simp only [List.cons_append, List.cons.injEq] at hrr
        exact hrr.1
      unfold lstripL
      rw [hd] at hr ⊢
      simp [List.dropWhile_cons, hc]

theorem pstripL_idem (l : List Char) : pstripL (pstripL l) = pstripL l := by
  have h1 : pstripL l = rstripL (lstripL l) := rfl
  rw [h1, pstripL, lstripL_rstripL_of_lstripped (lstripL_idem l), rstripL_idem]

theorem pyStrip_idem (s : String) : pyStrip (pyStrip s) = pyStrip s := by
  unfold pyStrip
  exact congrArg String.mk (pstripL_idem s.data)

theorem decompChar_of_ws {c : Char} (h : isWs c = true) : decompChar c = [c] := by
  simp only [isWs, Bool.or_eq_true, beq_iff_eq] at h
  rcases h with ((((((rfl | rfl) | rfl) | rfl) | rfl) | rfl) | rfl) <;> decide

theorem toLower_of_ws {c : Char} (h : isWs c = true) : Char.toLower c = c := by
  simp only [isWs, Bool.or_eq_true, beq_iff_eq] at h
  rcases h with ((((((rfl | rfl) | rfl) | rfl) | rfl) | rfl) | rfl) <;> decide

theorem stripAccentsL_of_ws {p : List Char} (h : ∀ c ∈ p, isWs c = true) :
    stripAccentsL p = p := by
  induction p with
  | nil => rfl
  | cons c cs ih =>
    unfold stripAccentsL at ih ⊢
    rw [List.flatMap_cons, decompChar_of_ws (h c (by simp)),
      ih fun d hd => h d (by simp [hd])]
    rfl

theorem lowerL_of_ws {p : List Char} (h : ∀ c ∈ p, isWs c = true) :
    lowerL p = p := by
  induction p with
  | nil => rfl
  | cons c cs ih =>
    unfold lowerL at ih ⊢
    rw [List.map_cons, toLower_of_ws (h c (by simp)),
      ih fun d hd => h d (by simp [hd])]

theorem makeKey_pyStrip (s : String) : makeKey (pyStrip s) = makeKey s := by
  obtain ⟨p, q, hl, hp, hq⟩ := pstripL_decomposition s.data
  have hdata : (pyStrip s).data = pstripL s.data := rfl
  unfold makeKey pyStrip pyLower stripAccents stripAccentsL lowerL
  apply congrArg String.mk
  simp only [hdata]
  conv_rhs => rw [hl]
  rw [List.flatMap_append, List.flatMap_append]
  rw [show (p.flatMap decompChar) = stripAccentsL p from rfl,
    show (q.flatMap decompChar) = stripAccentsL q from rfl,
    stripAccentsL_of_ws hp, stripAccentsL_of_ws hq,
    List.map_append, List.map_append,
    show (p.map Char.toLower) = lowerL p from rfl,
    show (q.map Char.toLower) = lowerL q from rfl,
    lowerL_of_ws hp, lowerL_of_ws hq]
  rw [pstripL_append_ws_right hq, pstripL_append_ws_left hp]

/-! Dictionary lemmas for the insertion-ordered association list model. -/

theorem dlookup_dictSet_self (d : List (String × String)) (k v : String) :
    dlookup (dictSet d k v) k = some v := by
  induction d with
  | nil => simp [dictSet, dlookup]
  | cons kv rest ih =>
    by_cases h : kv.1 = k
    · simp [dictSet, dlookup, h]
    · simp [dictSet, dlookup, h, ih]

theorem dlookup_dictSet_ne (d : List (String × String)) {k k' : String}
    (v : String) (h : k ≠ k') : dlookup (dictSet d k v) k' = dlookup d k' := by
  induction d with
  | nil => simp [dictSet, dlookup, h]
  | cons kv rest ih =>
    by_cases hk : kv.1 = k
    · simp [dictSet, dlookup, hk, h]
    · simp [dictSet, dlookup, hk, ih]

theorem dictSet_of_not_mem {d : List (String × String)} {k : String}
    (v : String) (h : dlookup d k = none) : dictSet d k v = d ++ [(k, v)] := by
  induction d with
  | nil => rfl
  | cons kv rest ih =>
    unfold dlookup at h
    by_cases hk : kv.1 = k
    · simp [hk] at h
    · simp only [hk, if_false] at h
      simp [dictSet, hk, ih h]

/-! Claim C1: the candidate-container rule of the section locator. -/

theorem candidateLoop_eq_find (title : String) (h : Node)
    (l : List (Option Node)) :
    candidateLoop title h l =
      ((l.filterMap id).find? fun p =>
        title.length < (renderedText p).length).getD h := by
  induction l with
  | nil => rfl
  | cons c rest ih =>
    cases c with
    | none => simpa [candidateLoop, List.filterMap_cons] using ih
    | some p =>
      by_cases hp : (renderedText p).length > title.length
      · rw [candidateLoop, if_pos hp, List.filterMap_cons]
        simp only [id]
        rw [List.find?_cons_of_pos _ (by simpa using hp)]
        rfl
      · rw [candidateLoop, if_neg hp, List.filterMap_cons]
        simp only [id]
        rw [List.find?_cons_of_neg _ (by simpa using hp)]
        exact ih

/-- The claimed candidate rule (spec section 4.2): among the existing
candidates, in the order immediate parent, nearest ancestor section,
nearest ancestor div, return the first whose cleaned rendered text is
strictly longer than the heading's cleaned text; otherwise the heading
itself. -/
def sectionFromHeading (h : Node) (anc : List Node) : Node :=
  let title := renderedText h
  (([anc.head?, findParentTag "section" anc, findParentTag "div" anc].filterMap
      id).find? fun p => title.length < (renderedText p).length).getD h

/-- Claim C1: whenever the section locator matches a heading, the returned
section is the first qualifying candidate container (immediate parent,
nearest ancestor section, nearest ancestor div, in that order), the heading
itself when none qualifies; when no heading at levels h1 to h5 matches, the
locator returns absence rather than failing. -/
theorem c1_section_locator_candidates (root : Node) (kws : List String) :
    findSectionByHeading root kws =
      (findHeadingAnchor root kws).map fun x => sectionFromHeading x.1 x.2 := by
  unfold findSectionByHeading
  cases hx : findHeadingAnchor root kws with
  | none => rfl
  | some x =>
    cases x with
    | mk h anc =>
      simp only [Option.map_some]
      rw [candidateLoop_eq_find]
      rfl

/-! Claim C7: which heading the section locator anchors on. -/

theorem headingScan_eq_find (ds : List (Node × List Node)) (kws : List String)
    (tgs : List String) :
    headingScan ds kws tgs =
      (tgs.flatMap fun tg => ds.filter fun x => nodeTag x.1 == tg).find?
        fun x => headingMatches kws x.1 := by
  induction tgs with
  | nil => rfl
  | cons tg rest ih =>
    rw [List.flatMap_cons, List.find?_append]
    unfold headingScan
    cases hfind : (ds.filter fun x => nodeTag x.1 == tg).find?
        (fun x => headingMatches kws x.1) with
    | some ha => simp [hfind, Option.or]
    | none => simp [hfind, Option.or, ih]

/-- The anchor heading as the claim describes it: the first heading in
document order, across all of h1..h5 at once, whose cleaned text matches
any keyword accent- and case-insensitively. -/
def docOrderAnchor (root : Node) (kws : List String) :
    Option (Node × List Node) :=
  (descsA [] root).find? fun x =>
    (headingLevels.contains (nodeTag x.1)) &&
      containsAny (renderedText x.1) kws

/-- A document with a matching h2 before a matching h1: the code anchors on
the h1 (levels are scanned one after the other), not on the first matching
heading in document order. -/
def c7Doc : Node :=
  Node.elem "[document]"
    [Node.elem "div" [Node.elem "h2" [Node.text "Identification"],
       Node.elem "p" [Node.text "AAA"]],
     Node.elem "div" [Node.elem "h1" [Node.text "Identification"],
       Node.elem "p" [Node.text "BBBBBB"]]]

/-- Counterexample to claim C7: on `c7Doc` the locator anchors on the h1
heading although the matching h2 heading comes first in document order. -/
theorem c7_counterexample :
    findHeadingAnchor c7Doc ["Identification"] ≠
      docOrderAnchor c7Doc ["Identification"] := by
  intro hEq
  have hobs := congrArg (Option.map fun x => nodeTag x.1) hEq
  exact absurd hobs (by decide)

/-- The anchor heading as the code selects it: all h1 headings in document
order, then all h2 headings, and so on through h5; the first with non-empty
cleaned text matching any keyword wins. -/
def levelMajorAnchor (root : Node) (kws : List String) :
    Option (Node × List Node) :=
  (headingLevels.flatMap fun tg =>
      (descsA [] root).filter fun x => nodeTag x.1 == tg).find?
    fun x => headingMatches kws x.1

/-- Amended claim C7: the heading anchored on is the first heading with
non-empty cleaned text matching any keyword in level-major order, scanning
all h1 elements in document order, then h2, h3, h4, h5. -/
theorem c7_anchor_level_major (root : Node) (kws : List String) :
    findHeadingAnchor root kws = levelMajorAnchor root kws :=
  headingScan_eq_find (descsA [] root) kws headingLevels

/-! Claim C6: the charges summary. -/

/-- The charges summary as the claim describes it: the semicolon-join of
the cleaned texts of the list items, falling back to the paragraph elements
only when no list item exists, truncated to 1000 characters. -/
def chargesSummaryClaim (container : Node) : String :=
  let lis := findAllTag container "li"
  let parts :=
    if lis.isEmpty then (findAllTag container "p").map renderedText
    else lis.map renderedText
  pyTake (joinSep "; " parts) 1000

/-- A charges container holding one empty list item and one paragraph with
text: the code ignores the empty list item and falls back to the paragraph,
while the claimed summary would be empty. -/
def c6Doc : Node :=
  Node.elem "div" [Node.elem "ul" [Node.elem "li" []],
    Node.elem "p" [Node.text "x"]]

/-- Counterexample to claim C6: with a list item of empty cleaned text
present, the code falls back to the paragraphs, so the summary is not the
join over the list items. -/
theorem c6_counterexample :
    extractQualification c6Doc ≠ chargesSummaryClaim c6Doc := by
  decide

/-- The charges summary as the code computes it: only non-empty cleaned
texts are collected, and the paragraph fallback fires exactly when no list
item has non-empty cleaned text. -/
def chargesSummaryAmended (container : Node) : String :=
  let liTexts :=
    ((findAllTag container "li").map renderedText).filter fun t => t ≠ ""
  let pTexts :=
    ((findAllTag container "p").map renderedText).filter fun t => t ≠ ""
  pyTake (joinSep "; " (if liTexts = [] then pTexts else liTexts)) 1000

/-- Amended claim C6: the summary is the semicolon-join of the non-empty
cleaned list-item texts, or of the non-empty cleaned paragraph texts when no
list item has non-empty cleaned text, truncated to 1000 characters. -/
theorem c6_charges_summary (container : Node) :
    extractQualification container = chargesSummaryAmended container := by
  unfold extractQualification chargesSummaryAmended
  by_cases h :
      ((findAllTag container "li").map renderedText).filter (fun t => t ≠ "")
        = [] <;> simp [h]

/-! Claim C8: the inline-label extraction strategy. -/

/-- The inline-label strategy as the claim describes it: elements whose
cleaned text contains a colon are split at the first colon, and the pair is
kept only when both trimmed parts are non-trivial. -/
def inlinePairsClaim (container : Node) : List (String × String) :=
  (findAllTags container ["li", "p"]).flatMap fun el =>
    let txt := renderedText el
    if pyIn ":" txt then
      match splitFirstColon txt.data with
      | some (a, b) =>
        let key := pyStrip ⟨a⟩
        let val := pyStrip ⟨b⟩
        if key ≠ "" ∧ val ≠ "" then [(key, val)] else []
      | none => []
    else []

/-- A list item whose text starts with a colon: the label part is empty,
yet the code keeps the pair because the value part is non-empty. -/
def c8Doc : Node := Node.elem "div" [Node.elem "li" [Node.text ": x"]]

/-- Counterexample to claim C8: the pair with empty label and value "x" is
emitted although the split does not yield two non-trivial parts. -/
theorem c8_counterexample :
    extractPairsFromListItems c8Doc ≠ inlinePairsClaim c8Doc := by
  decide

/-- The inline-label strategy as the code works: elements whose cleaned
text contains a colon are split at the first colon, and the pair is skipped
only when both trimmed parts are empty. -/
def inlinePairsAmended (container : Node) : List (String × String) :=
  (findAllTags container ["li", "p"]).flatMap fun el =>
    let txt := renderedText el
    if pyIn ":" txt then
      match splitFirstColon txt.data with
      | some (a, b) =>
        let key := pyStrip ⟨a⟩
        let val := pyStrip ⟨b⟩
        if key ≠ "" ∨ val ≠ "" then [(key, val)] else []
      | none => []
    else []

/-- Amended claim C8: the inline-label strategy considers exactly the
list-item and paragraph elements whose cleaned text contains a colon,
splits on the first colon only, and skips the element only when both
trimmed parts are empty. -/
theorem c8_inline_pairs (container : Node) :
    extractPairsFromListItems container = inlinePairsAmended container := by
  unfold extractPairsFromListItems inlinePairsAmended
  congr 1
  funext el
  by_cases h : pyIn ":" (renderedText el) = true
  · have hne : ¬ renderedText el = "" := by
      intro he
      rw [he] at h
      exact absurd h (by decide)
    simp [h, hne]
  · simp [h, Bool.not_eq_true _ ▸ h]

/-! Claim C5: the derived age. -/

/-- The age derivation as the claim describes it: all non-digit characters
are discarded, the first four remaining digits are read as a year, and the
age is the difference to the current year when the year is in range and the
difference is strictly positive, the empty string otherwise. -/
def ageClaim (currentYear : Nat) (s : String) : String :=
  let ds := s.data.filter Char.isDigit
  if ds.length < 4 then ""
  else
    let year := natOfDigits (ds.take 4)
    if 1900 ≤ year ∧ year ≤ currentYear ∧ 0 < currentYear - year then
      toString (currentYear - year)
    else ""

/-- Claim C5: the scraper's age computation agrees with the claimed rule on
every date string and current year. -/
theorem c5_age_derivation (currentYear : Nat) (s : String) :
    computeAgeFromDateText currentYear s = ageClaim currentYear s := by
  unfold computeAgeFromDateText ageClaim
  by_cases hs : s = ""
  · subst hs
    rfl
  · simp only [hs, if_false]
    split_ifs <;> first | rfl | omega

/-! Claim C9: scraping with both sections missing. -/

/-- Claim C9: when no heading matches the identification keywords and none
matches the charges keywords, scraping a fetched document still produces a
record carrying the URL, with no identification fields and an empty charges
summary. -/
theorem c9_sections_missing (url : String) (soup : Node)
    (hIdent : findSectionByHeading soup identificationKeywords = none)
    (hQualif : findSectionByHeading soup qualificationKeywords = none) :
    scrapeNoticeParsed url soup =
      { url := url, fields := [], infractions := "" } := by
  unfold scrapeNoticeParsed
  rw [hIdent, hQualif]

/-- A fetched document with no headings at all. -/
def c9Doc : Node := Node.elem "[document]" [Node.elem "p" [Node.text "hello"]]

/-- Witness for claim C9 on a concrete document without matching
headings. -/
theorem c9_witness :
    scrapeNoticeParsed "https://example.org/notice/1" c9Doc =
      { url := "https://example.org/notice/1", fields := [],
        infractions := "" } :=
  c9_sections_missing "https://example.org/notice/1" c9Doc rfl rfl

/-! Claim C2: the merge rule of the record assembler. -/

theorem pyIn_self (s : String) : pyIn s s = true := by
  unfold pyIn
  cases h : s.data with
  | nil => rfl
  | cons c r =>
    unfold infixCheck
    simp [List.isPrefixOf_iff_prefix]

/-- Claim C2: one step of the merge loop skips pairs with empty cleaned
value, stores the value under an absent key by appending the binding at the
end, and for a present non-empty stored value appends `"; " + value`
exactly when the value is not a substring of the stored one — so an exact
duplicate value is stored only once. -/
theorem c2_merge_rule (data : List (String × String)) (rk rv : String) :
    (cleanText rv = "" → mergeStep data (rk, rv) = data)
    ∧ (cleanText rv ≠ "" →
        dlookup data (normalizeIdentificationKey rk) = none →
        mergeStep data (rk, rv) =
          data ++ [(normalizeIdentificationKey rk, cleanText rv)])
    ∧ (∀ old, cleanText rv ≠ "" → old ≠ "" →
        dlookup data (normalizeIdentificationKey rk) = some old →
        (dlookup (mergeStep data (rk, rv)) (normalizeIdentificationKey rk) =
            some (old ++ "; " ++ cleanText rv)
          ↔ pyIn (cleanText rv) old = false)
        ∧ (cleanText rv = old →
            dlookup (mergeStep data (rk, rv)) (normalizeIdentificationKey rk) =
              some old)) := by
  refine ⟨fun hv => ?_, fun hv hnone => ?_, fun old hv hold hsome => ?_⟩
  · unfold mergeStep
    simp [hv]
  · unfold mergeStep
    simp only [hv, if_false, hnone]
    exact dictSet_of_not_mem _ hnone
  · unfold mergeStep
    simp only [hv, if_false, hsome]
    by_cases hin : pyIn (cleanText rv) old = false
    · simp only [hold, ne_eq, not_false_iff, true_and, hin, if_true]
      constructor
      · simp [dlookup_dictSet_self]
      · intro hdup
        rw [hdup] at hin
        rw [pyIn_self old] at hin
        exact absurd hin (by simp)
    · have hin' : pyIn (cleanText rv) old = true := by
        revert hin
        cases pyIn (cleanText rv) old <;> simp
      simp only [hin', Bool.true_eq_false, and_false, if_false]
      constructor
      · constructor
        · intro habs
          rw [dlookup_dictSet_self] at habs
          have hlen := congrArg String.length (Option.some.injEq .. ▸ habs)
          rw [String.length_append, String.length_append] at hlen
          have : ("; ").length = 2 := rfl
          omega
        · intro hfalse
          exact hfalse.elim
      · intro hdup
        rw [dlookup_dictSet_self, hdup]

/-- Witness for claim C2: merging the pair `("nom", "y")` into a record
where `Nom` holds `"x"` appends with a semicolon separator. -/
theorem c2_witness :
    dlookup (mergeStep [("Nom", "x")] ("nom", "y"))
        (normalizeIdentificationKey "nom") = some ("x" ++ "; " ++ "y") := by
  have h := (c2_merge_rule [("Nom", "x")] "nom" "y").2.2 "x"
    (by decide) (by decide) (by decide)
  have hval : cleanText "y" = "y" := by decide
  rw [← hval]
  exact h.1.mpr (by decide)

/-! Claim C3: the accumulated value of a canonical field. -/

/-- Combination of a possibly-present stored value with one new non-empty
cleaned value, as the merge loop performs it: append with `"; "` when the
stored value is non-empty and the new value is not a substring of it,
otherwise the new value replaces it. -/
def fieldCombine (o : Option String) (v : String) : String :=
  match o with
  | none => v
  | some old => if old ≠ "" ∧ pyIn v old = false then old ++ "; " ++ v else v

/-- The value accumulated for the canonical key `k` after processing a
sequence of raw pairs, starting from a possibly-present stored value. -/
def fieldFold (k : String) (o : Option String) :
    List (String × String) → Option String
  | [] => o
  | (rk, rv) :: rest =>
    if normalizeIdentificationKey rk = k ∧ cleanText rv ≠ "" then
      fieldFold k (some (fieldCombine o (cleanText rv))) rest
    else fieldFold k o rest

theorem mergeStep_dlookup (data : List (String × String))
    (rk rv : String) (k : String) :
    dlookup (mergeStep data (rk, rv)) k =
      if normalizeIdentificationKey rk = k ∧ cleanText rv ≠ "" then
        some (fieldCombine (dlookup data k) (cleanText rv))
      else dlookup data k := by
  by_cases hv : cleanText rv = ""
  · unfold mergeStep
    simp [hv]
  · by_cases hkk : normalizeIdentificationKey rk = k
    · unfold mergeStep
      simp only [hv, if_false, hkk, ne_eq, not_false_iff, and_true, if_true]
      cases hlook : dlookup data k with
      | none => simp [dlookup_dictSet_self, fieldCombine]
      | some old =>
        by_cases hc : old ≠ "" ∧ pyIn (cleanText rv) old = false <;>
          simp [hc, dlookup_dictSet_self, fieldCombine]
    · unfold mergeStep
      simp only [hv, if_false, hkk, false_and]
      cases hlook : dlookup data (normalizeIdentificationKey rk) with
      | none => simp [dlookup_dictSet_ne data _ hkk]
      | some old =>
        by_cases hc : old ≠ "" ∧ pyIn (cleanText rv) old = false <;>
          simp [hc, dlookup_dictSet_ne data _ hkk]

theorem foldl_mergeStep_dlookup (ps : List (String × String))
    (data : List (String × String)) (k : String) :
    dlookup (ps.foldl mergeStep data) k = fieldFold k (dlookup data k) ps := by
  induction ps generalizing data with
  | nil => rfl
  | cons p rest ih =>
    obtain ⟨rk, rv⟩ := p
    rw [List.foldl_cons, ih, mergeStep_dlookup data rk rv k]
    simp only [fieldFold]
    by_cases hc : normalizeIdentificationKey rk = k ∧ cleanText rv ≠ ""
    · rw [if_pos hc, if_pos hc]
    · rw [if_neg hc, if_neg hc]

/-- Amended claim C3: for every canonical key, the stored value after the
merge loop is the fold of the non-empty cleaned values contributed to that
key, in order, where the first value is stored and each later value is
appended with a semicolon separator when it is not a substring of the
accumulated value and replaces the accumulated value otherwise. -/
theorem c3_field_value (ps : List (String × String)) (k : String) :
    dlookup (mergePairs ps) k = fieldFold k none ps :=
  foldl_mergeStep_dlookup ps [] k

/-- The semicolon-join of the distinct contributed values described by
claim C3: values already present as a substring of the accumulated string
are skipped, the others are appended in first-seen order. -/
def distinctJoin (vs : List String) : String :=
  vs.foldl
    (fun acc v =>
      if pyIn v acc then acc
      else if acc = "" then v else acc ++ "; " ++ v) ""

/-- The cleaned values of the raw pairs contributing to canonical key `k`:
those with non-empty cleaned value whose label normalizes to `k`. -/
def fieldValuesFor (k : String) (ps : List (String × String)) : List String :=
  (ps.filter fun p =>
    normalizeIdentificationKey p.1 = k ∧ cleanText p.2 ≠ "").map
    fun p => cleanText p.2

/-- Two pairs for the same field whose second value is a proper substring
of the first. -/
def c3Pairs : List (String × String) := [("nom", "ab"), ("nom", "b")]

/-- Counterexample to claim C3: on `c3Pairs` the stored value of `Nom` is
`"b"` (the merge loop replaces the stored `"ab"`), not the claimed
duplicate-free join `"ab"` of the contributed values. -/
theorem c3_counterexample :
    dlookup (mergePairs c3Pairs) "Nom" ≠
      some (distinctJoin (fieldValuesFor "Nom" c3Pairs)) := by
  decide

/-! Claim C4: the key normalizer. -/

/-- The key normalizer as the claim describes it: exact lookup of the
accent-stripped, lowercased, trimmed label, then the ordered substring
fallback rules, and — when nothing matches — the original raw label
returned unchanged. -/
def normalizeKeyClaim (rawKey : String) : String :=
  let key := makeKey rawKey
  match dlookup keyMapping key with
  | some v => v
  | none =>
    if pyIn "yeux" key || pyIn "eyes" key then "Couleur des yeux"
    else if pyIn "cheveux" key || pyIn "hair" key then "Couleur des cheveux"
    else if pyIn "nation" key then "Nationalité"
    else if pyIn "birth" key || pyIn "naissance" key then
      if pyIn "lieu" key || pyIn "place" key then "Lieu de naissance"
      else if pyIn "pays" key || pyIn "country" key then "Pays de naissance"
      else "Date de naissance"
    else rawKey

/-- Counterexample to claim C4: a label with surrounding whitespace that
matches no table entry and no fallback rule is returned stripped, not
unchanged. -/
theorem c4_counterexample :
    normalizeIdentificationKey " zz " ≠ normalizeKeyClaim " zz " := by
  decide

/-- Amended claim C4: the key normalizer performs the exact table lookup on
the accent-stripped, lowercased, trimmed label, then the substring fallback
rules in their fixed order, and when nothing matches it returns the raw
label stripped of surrounding whitespace. -/
theorem c4_key_normalizer (raw : String) :
    (∀ v, dlookup keyMapping (makeKey raw) = some v →
      normalizeIdentificationKey raw = v)
    ∧ (dlookup keyMapping (makeKey raw) = none →
      ((pyIn "yeux" (makeKey raw) || pyIn "eyes" (makeKey raw)) = true →
        normalizeIdentificationKey raw = "Couleur des yeux")
      ∧ ((pyIn "yeux" (makeKey raw) || pyIn "eyes" (makeKey raw)) = false →
         (pyIn "cheveux" (makeKey raw) || pyIn "hair" (makeKey raw)) = true →
        normalizeIdentificationKey raw = "Couleur des cheveux")
      ∧ ((pyIn "yeux" (makeKey raw) || pyIn "eyes" (makeKey raw)) = false →
         (pyIn "cheveux" (makeKey raw) || pyIn "hair" (makeKey raw)) = false →
         pyIn "nation" (makeKey raw) = true →
        normalizeIdentificationKey raw = "Nationalité")
      ∧ ((pyIn "yeux" (makeKey raw) || pyIn "eyes" (makeKey raw)) = false →
         (pyIn "cheveux" (makeKey raw) || pyIn "hair" (makeKey raw)) = false →
         pyIn "nation" (makeKey raw) = false →
         (pyIn "birth" (makeKey raw) || pyIn "naissance" (makeKey raw)) = true →
        ((pyIn "lieu" (makeKey raw) || pyIn "place" (makeKey raw)) = true →
          normalizeIdentificationKey raw = "Lieu de naissance")
        ∧ ((pyIn "lieu" (makeKey raw) || pyIn "place" (makeKey raw)) = false →
           (pyIn "pays" (makeKey raw) || pyIn "country" (makeKey raw)) = true →
          normalizeIdentificationKey raw = "Pays de naissance")
        ∧ ((pyIn "lieu" (makeKey raw) || pyIn "place" (makeKey raw)) = false →
           (pyIn "pays" (makeKey raw) || pyIn "country" (makeKey raw)) = false →
          normalizeIdentificationKey raw = "Date de naissance"))
      ∧ ((pyIn "yeux" (makeKey raw) || pyIn "eyes" (makeKey raw)) = false →
         (pyIn "cheveux" (makeKey raw) || pyIn "hair" (makeKey raw)) = false →
         pyIn "nation" (makeKey raw) = false →
         (pyIn "birth" (makeKey raw) || pyIn "naissance" (makeKey raw)) = false →
        normalizeIdentificationKey raw = pyStrip raw)) := by
  constructor
  · intro v hv
    simp only [normalizeIdentificationKey, hv]
  · intro hnone
    have hf : normalizeIdentificationKey raw = keyFallback (makeKey raw) raw := by
      simp only [normalizeIdentificationKey, hnone]
    refine ⟨fun h1 => ?_, fun h1 h2 => ?_, fun h1 h2 h3 => ?_,
      fun h1 h2 h3 h4 => ⟨fun h5 => ?_, fun h5 h6 => ?_, fun h5 h6 => ?_⟩,
      fun h1 h2 h3 h4 => ?_⟩ <;>
      rw [hf] <;> unfold keyFallback <;>
      simp_all

/-- Witness for claim C4: a mapped label, a fallback-rule label, and an
unmapped label are normalized as the amended claim states. -/
theorem c4_witness :
    normalizeIdentificationKey "NATIONALITY" = "Nationalité" ∧
    normalizeIdentificationKey "Pays of birth" = "Pays de naissance" ∧
    normalizeIdentificationKey " zz " = pyStrip " zz " := by
  refine ⟨(c4_key_normalizer "NATIONALITY").1 "Nationalité" (by decide), ?_, ?_⟩
  · exact ((((c4_key_normalizer "Pays of birth").2 (by decide)).2.2.2.1
      (by decide) (by decide) (by decide) (by decide)).2.1 (by decide) (by decide))
  · exact (((c4_key_normalizer " zz ").2 (by decide)).2.2.2.2
      (by decide) (by decide) (by decide) (by decide))

/-! Claim C10: idempotence of the key normalizer. -/

theorem dlookup_mem_values (d : List (String × String)) (k v : String)
    (h : dlookup d k = some v) : v ∈ d.map Prod.snd := by
  induction d with
  | nil => simp [dlookup] at h
  | cons kv rest ih =>
    unfold dlookup at h
    by_cases hk : kv.1 = k
    · simp only [hk, if_true, Option.some.injEq] at h
      simp [h]
    · simp only [hk, if_false] at h
      simp [ih h]

theorem keyMapping_values_fixed :
    ∀ v ∈ keyMapping.map Prod.snd, normalizeIdentificationKey v = v := by
  decide

/-- Claim C10: key normalization is idempotent: normalizing an already
normalized label returns it unchanged. -/
theorem c10_normalize_key_idempotent (s : String) :
    normalizeIdentificationKey (normalizeIdentificationKey s) =
      normalizeIdentificationKey s := by
  cases h : dlookup keyMapping (makeKey s) with
  | some v =>
    have hs : normalizeIdentificationKey s = v := by
      simp only [normalizeIdentificationKey, h]
    rw [hs]
    exact keyMapping_values_fixed v (dlookup_mem_values keyMapping _ v h)
  | none =>
    have hs : normalizeIdentificationKey s = keyFallback (makeKey s) s := by
      simp only [normalizeIdentificationKey, h]
    rw [hs]
    unfold keyFallback
    by_cases h1 : (pyIn "yeux" (makeKey s) || pyIn "eyes" (makeKey s)) = true
    · simp only [h1, if_true]
      decide
    · simp only [Bool.not_eq_true] at h1
      by_cases h2 : (pyIn "cheveux" (makeKey s) || pyIn "hair" (makeKey s)) = true
      · simp only [h1, h2, Bool.false_eq_true, if_false, if_true]
        decide
      · simp only [Bool.not_eq_true] at h2
        by_cases h3 : pyIn "nation" (makeKey s) = true
        · simp only [h1, h2, h3, Bool.false_eq_true, if_false, if_true]
          decide
        · simp only [Bool.not_eq_true] at h3
          by_cases h4 : (pyIn "birth" (makeKey s) || pyIn "naissance" (makeKey s))
              = true
          · simp only [h1, h2, h3, h4, Bool.false_eq_true, if_false, if_true]
            split_ifs <;> decide
          · simp only [Bool.not_eq_true] at h4
            simp only [h1, h2, h3, h4, Bool.false_eq_true, if_false]
            have hk := makeKey_pyStrip s
            have hs2 : normalizeIdentificationKey (pyStrip s) =
                keyFallback (makeKey s) (pyStrip s) := by
              simp only [normalizeIdentificationKey, hk, h]
            rw [hs2]
            unfold keyFallback
            simp only [h1, h2, h3, h4, Bool.false_eq_true, if_false]
            exact pyStrip_idem s
